import Mathlib

/-!
Verification of the argument-rewriting engine of the cli-wrapper program
(src/main.rs).  Tokens are modelled as `List Char`; the functions below are
direct translations of the Rust functions of the same names.
-/

/-- Tokens are strings, modelled as lists of characters. -/
abbrev Tok := List Char

/-- Models Rust `char::is_whitespace` (the Unicode White_Space property),
used by `ResponseFile::parse_response_file` (main.rs line 131). -/
def rustIsWhitespace (c : Char) : Bool :=
  let n := c.toNat
  (9 ≤ n && n ≤ 13) || n = 32 || n = 133 || n = 160 || n = 5760 ||
    (8192 ≤ n && n ≤ 8202) || n = 8232 || n = 8233 || n = 8239 || n = 8287 ||
    n = 12288

/-- Translation of `ResponseFile::unescape` (main.rs lines 92-114): a
backslash followed by a quote yields a quote, a backslash followed by a
backslash yields one backslash, a backslash followed by anything else is
kept together with that character, and a trailing backslash is kept. -/
def unescape : List Char → List Char
  | [] => []
  | c :: rest =>
    if c = '\\' then
      match rest with
      | [] => ['\\']
      | d :: rest2 =>
        (if d = '"' then ['"'] else if d = '\\' then ['\\'] else ['\\', d]) ++
          unescape rest2
    else c :: unescape rest

/-- The per-character output of the loop body of `ResponseFile::escape`
(main.rs lines 62-83). -/
def escapeChunk (c : Char) : List Char :=
  if c = ' ' then [' ']
  else if c = '\t' then ['\\', 't']
  else if c = '"' then ['\\', '"']
  else if c = '\\' then ['\\', '\\']
  else [c]

/-- Whether a character sets the `needs_quotes` flag in
`ResponseFile::escape` (main.rs lines 62-83). -/
def needsQuoteChar (c : Char) : Bool :=
  c = ' ' || c = '\t' || c = '"'

/-- The accumulated `result` string of the loop of `ResponseFile::escape`. -/
def escBody : List Char → List Char
  | [] => []
  | c :: rest => escapeChunk c ++ escBody rest

/-- Translation of `ResponseFile::escape` (main.rs lines 58-90). -/
def escape (arg : List Char) : List Char :=
  if arg.any needsQuoteChar then '"' :: escBody arg ++ ['"'] else escBody arg

/-- The pure content computation of `ResponseFile::write_response_file`
(main.rs lines 46-56): each value is escaped and the results are joined
with a single space. -/
def write_response_file_content : List Tok → List Char
  | [] => []
  | t :: ts =>
    match ts with
    | [] => escape t
    | _ :: _ => escape t ++ ' ' :: write_response_file_content ts

/-- The scanning loop of `ResponseFile::parse_response_file` (main.rs lines
123-139) together with the final flush (lines 141-143).  Arguments:
remaining input, `current_arg`, `in_quotes`, `escape_next`. -/
def parseAux : List Char → List Char → Bool → Bool → List Tok
  | [], cur, _inq, _esc => if cur = [] then [] else [unescape cur]
  | c :: rest, cur, inq, esc =>
    if esc then parseAux rest (cur ++ [c]) inq false
    else if c = '\\' then parseAux rest cur inq true
    else if c = '"' then parseAux rest cur (!inq) false
    else if rustIsWhitespace c && !inq then
      if cur = [] then parseAux rest [] inq false
      else unescape cur :: parseAux rest [] inq false
    else parseAux rest (cur ++ [c]) inq false

/-- Translation of `ResponseFile::parse_response_file` (main.rs lines
117-146). -/
def parse_response_file (content : List Char) : List Tok :=
  parseAux content [] false false

/-- Models `str::replace("\r\n", "\n")` as performed by
`ResponseFile::read_response_file` (main.rs line 42). -/
def normalizeCRLF : List Char → List Char
  | [] => []
  | [c] => [c]
  | c :: d :: rest =>
    if c = '\r' ∧ d = '\n' then '\n' :: normalizeCRLF rest
    else c :: normalizeCRLF (d :: rest)

/-- Translation of `ResponseFile::read_response_file` (main.rs lines 41-44).
The outcome of the external call `fs::read_to_string` is passed in as an
`Option`: `none` models a read error. -/
def read_response_file (readOutcome : Option (List Char)) : Option (List Tok) :=
  readOutcome.map (fun content => parse_response_file (normalizeCRLF content))

/-- Translation of the `ResponseFile` struct (main.rs lines 9-14). -/
structure ResponseFile where
  original_path : Tok
  new_path : Tok
  values : List Tok
  changed : Bool
  deriving DecidableEq

/-- Translation of `ResponseFile::new` (main.rs lines 16-24): the read
outcome of the file at `original_path` is passed in; a failed read
(`none`) falls back to an empty value list via `unwrap_or(vec![])`. -/
def ResponseFile.new (original_path new_path : Tok)
    (readOutcome : Option (List Char)) : ResponseFile :=
  { original_path := original_path
    new_path := new_path
    values := (read_response_file readOutcome).getD []
    changed := false }

/-- Absence of a backslash immediately followed by a backslash or a double
quote; on such inputs `unescape` is the identity. -/
def noBadPair : List Char → Bool
  | [] => true
  | [_] => true
  | c :: d :: rest =>
    if c = '\\' ∧ (d = '\\' ∨ d = '"') then false else noBadPair (d :: rest)

theorem noBadPair_tail : ∀ (c : Char) (l : List Char),
    noBadPair (c :: l) = true → noBadPair l = true
  | _, [], _ => rfl
  | c, d :: rest, h => by
    by_cases hcd : c = '\\' ∧ (d = '\\' ∨ d = '"')
    · simp [noBadPair, hcd] at h
    · simpa [noBadPair, hcd] using h

theorem unescape_id : ∀ (l : List Char), noBadPair l = true → unescape l = l
  | [], _ => rfl
  | [c], _ => by
    by_cases hc : c = '\\'
    · subst hc; rfl
    · simp [unescape, hc]
  | c :: d :: rest, h => by
    have htail : noBadPair (d :: rest) = true := noBadPair_tail c (d :: rest) h
    have hrest : noBadPair rest = true := noBadPair_tail d rest htail
    by_cases hc : c = '\\'
    · subst hc
      have hd : ¬(d = '\\' ∨ d = '"') := by
        intro hor
        simp [noBadPair, hor] at h
      have hd1 : d ≠ '"' := fun hh => hd (Or.inr hh)
      have hd2 : d ≠ '\\' := fun hh => hd (Or.inl hh)
      simp [unescape, hd1, hd2, unescape_id rest hrest]
    · simp [unescape, hc, unescape_id (d :: rest) htail]

theorem parseAux_cons_plain (c : Char) (l cur : List Char) (q : Bool)
    (h1 : c ≠ '\\') (h2 : c ≠ '"') (h3 : (rustIsWhitespace c && !q) = false) :
    parseAux (c :: l) cur q false = parseAux l (cur ++ [c]) q false := by
  simp [parseAux, h1, h2, h3]

theorem parseAux_space_flush (l cur : List Char) (h : cur ≠ []) :
    parseAux (' ' :: l) cur false false = unescape cur :: parseAux l [] false false := by
  obtain ⟨c0, cur', rfl⟩ := List.exists_cons_of_ne_nil h
  rfl

/-- Scanning the escaped body of a token accumulates exactly the original
token characters, provided the scan is inside quotes whenever the token
contains a space and the token contains no other whitespace. -/
theorem parseAux_escBody (X : List Char) : ∀ (cur rest : List Char) (q : Bool),
    (∀ c ∈ X, (c = ' ' → q = true) ∧ (c = ' ' ∨ rustIsWhitespace c = false)) →
    parseAux (escBody X ++ rest) cur q false = parseAux rest (cur ++ X) q false := by
  induction X with
  | nil => intro cur rest q _; simp [escBody]
  | cons c X ih =>
    intro cur rest q h
    have hc := h c (List.mem_cons_self c X)
    have hX : ∀ d ∈ X, (d = ' ' → q = true) ∧ (d = ' ' ∨ rustIsWhitespace d = false) :=
      fun d hd => h d (List.mem_cons_of_mem c hd)
    by_cases hsp : c = ' '
    · have hq : q = true := hc.1 hsp
      subst hsp hq
      have hstep : parseAux (escBody (' ' :: X) ++ rest) cur true false
          = parseAux (escBody X ++ rest) (cur ++ [' ']) true false := rfl
      rw [hstep, ih (cur ++ [' ']) rest true hX]
      simp
    · by_cases htab : c = '\t'
      · subst htab
        rcases hc.2 with hh | hh
        · exact absurd hh (by decide)
        · exact absurd hh (by decide)
      · by_cases hquo : c = '"'
        · subst hquo
          have hstep : parseAux (escBody ('"' :: X) ++ rest) cur q false
              = parseAux (escBody X ++ rest) (cur ++ ['"']) q false := rfl
          rw [hstep, ih (cur ++ ['"']) rest q hX]
          simp
        · by_cases hbs : c = '\\'
          · subst hbs
            have hstep : parseAux (escBody ('\\' :: X) ++ rest) cur q false
                = parseAux (escBody X ++ rest) (cur ++ ['\\']) q false := rfl
            rw [hstep, ih (cur ++ ['\\']) rest q hX]
            simp
          · have hws : rustIsWhitespace c = false := by
              rcases hc.2 with hh | hh
              · exact absurd hh hsp
              · exact hh
            have hchunk : escBody (c :: X) = c :: escBody X := by
              simp [escBody, escapeChunk, hsp, htab, hquo, hbs]
            rw [hchunk, List.cons_append,
              parseAux_cons_plain c _ cur q hbs hquo (by simp [hws]),
              ih (cur ++ [c]) rest q hX]
            simp

/-- Scanning one serialized token (in either its quoted or unquoted form)
followed by `rest` accumulates exactly the original token. -/
theorem parseAux_escape (X : List Char)
    (hchars : ∀ c ∈ X, c = ' ' ∨ rustIsWhitespace c = false) (rest : List Char) :
    parseAux (escape X ++ rest) [] false false = parseAux rest X false false := by
  unfold escape
  by_cases hq : X.any needsQuoteChar
  · rw [if_pos hq]
    have hsh : ('"' :: escBody X ++ ['"']) ++ rest = '"' :: (escBody X ++ ('"' :: rest)) := by
      simp
    rw [hsh,
      show parseAux ('"' :: (escBody X ++ ('"' :: rest))) [] false false
        = parseAux (escBody X ++ ('"' :: rest)) [] true false from rfl,
      parseAux_escBody X [] ('"' :: rest) true (fun c hcm => ⟨fun _ => rfl, hchars c hcm⟩)]
    rfl
  · rw [if_neg hq]
    have hnosp : ∀ c ∈ X, (c = ' ' → False) ∧ (c = ' ' ∨ rustIsWhitespace c = false) := by
      intro c hcm
      refine ⟨fun hsp => ?_, hchars c hcm⟩
      exact hq (List.any_eq_true.mpr ⟨c, hcm, by simp [needsQuoteChar, hsp]⟩)
    rw [parseAux_escBody X [] rest false (fun c hcm => ⟨fun hsp => absurd hsp (hnosp c hcm).1, hchars c hcm⟩)]
    simp

/-- A token round-trips through the codec when it is nonempty, contains no
whitespace other than spaces, and contains no backslash immediately
followed by a backslash or double quote. -/
def goodToken (t : List Char) : Prop :=
  t ≠ [] ∧ (∀ c ∈ t, c = ' ' ∨ rustIsWhitespace c = false) ∧ noBadPair t = true

instance (t : List Char) : Decidable (goodToken t) := by
  unfold goodToken
  infer_instance

/-- C1 (counterexample): a token consisting of a single tab character does
not round-trip: the serializer writes a tab as backslash-t, and the
tokenizer turns that into a literal letter t. -/
theorem c1_counterexample :
    parse_response_file (write_response_file_content [['\t']]) ≠ [['\t']] := by
  decide

/-- C1 (amended): tokenizing the serialization of a token sequence yields
the sequence back, provided every token is nonempty, contains no
whitespace character other than the space, and contains no backslash
immediately followed by a backslash or a double quote. -/
theorem c1_roundtrip (toks : List Tok) (h : ∀ t ∈ toks, goodToken t) :
    parse_response_file (write_response_file_content toks) = toks := by
  unfold parse_response_file
  induction toks with
  | nil => rfl
  | cons t ts ih =>
    obtain ⟨hne, hchars, hnbp⟩ := h t (List.mem_cons_self t ts)
    have hts : ∀ u ∈ ts, goodToken u := fun u hu => h u (List.mem_cons_of_mem t hu)
    match ts with
    | [] =>
      show parseAux (escape t) [] false false = [t]
      rw [← List.append_nil (escape t), parseAux_escape t hchars []]
      show (if t = [] then [] else [unescape t]) = [t]
      rw [if_neg hne, unescape_id t hnbp]
    | u :: ts' =>
      show parseAux (escape t ++ ' ' :: write_response_file_content (u :: ts')) [] false false
          = t :: u :: ts'
      rw [parseAux_escape t hchars _,
        parseAux_space_flush (write_response_file_content (u :: ts')) t hne,
        unescape_id t hnbp, ih hts]

/-- C1 (witness): a concrete sequence with a space, a backslash and a
quote round-trips. -/
theorem c1_roundtrip_witness :
    (∀ t ∈ [['a', ' '], ['\\', 'x', '"']], goodToken t) ∧
    parse_response_file (write_response_file_content [['a', ' '], ['\\', 'x', '"']])
      = [['a', ' '], ['\\', 'x', '"']] :=
  ⟨by decide, c1_roundtrip [['a', ' '], ['\\', 'x', '"']] (by decide)⟩

/-- C4 (counterexample): four consecutive backslashes do not tokenize to
two literal backslashes (they yield a single backslash, because
`parse_response_file` consumes escapes during the scan and then applies
`unescape` to the finished token, collapsing the remaining pair). -/
theorem c4_counterexample :
    parse_response_file ['\\', '\\', '\\', '\\'] ≠ [['\\', '\\']] := by
  decide

/-- C4 (amended): during the scan a backslash sets the escape flag and is
not emitted, and the character after it is appended literally to the
in-progress token; the finished token then additionally passes through
`unescape`, which collapses backslash-backslash and backslash-quote
pairs, so backslash-x tokenizes to x and four consecutive backslashes
tokenize to one literal backslash. -/
theorem c4_escape_step :
    (∀ (cur rest : List Char) (inq : Bool) (c : Char),
        parseAux ('\\' :: c :: rest) cur inq false = parseAux rest (cur ++ [c]) inq false) ∧
    parse_response_file ['\\', 'x'] = [['x']] ∧
    parse_response_file ['\\', '\\', '\\', '\\'] = [['\\']] :=
  ⟨fun _ _ _ _ => rfl, by decide, by decide⟩

/-- C8: loading a response file whose content cannot be read (the read
outcome is `none`) produces a `ResponseFile` whose token sequence is
empty and which starts out unchanged; no error is propagated, since
`ResponseFile::new` is total. -/
theorem c8_unreadable_file_empty (original_path new_path : Tok) :
    (ResponseFile.new original_path new_path none).values = [] ∧
    (ResponseFile.new original_path new_path none).changed = false :=
  ⟨rfl, rfl⟩

/-- Association-list model of the `HashMap<String, ResponseFile>`
`response_map` of `Configuration` (main.rs line 157). -/
abbrev ResponseMap := List (Tok × ResponseFile)

/-- Lookup in the response map (models `HashMap::get_mut`). -/
def mlookup : ResponseMap → Tok → Option ResponseFile
  | [], _ => none
  | (k, f) :: rest, p => if k = p then some f else mlookup rest p

/-- In-place replacement of the entry at a key (models the effect of
mutating through `HashMap::get_mut`). -/
def mupdate : ResponseMap → Tok → ResponseFile → ResponseMap
  | [], _, _ => []
  | (k, f) :: rest, p, f' => if k = p then (k, f') :: rest else (k, f) :: mupdate rest p f'

/-- The flag-spelling selection of `change_link_feature` (main.rs lines
214-218): `(static_key, dynamic_key)`. -/
def link_keys (is_linker : Option Tok) : Tok × Tok :=
  if is_linker.isSome then ("-Bstatic".data, "-Bdynamic".data)
  else ("-Wl,-Bstatic".data, "-Wl,-Bdynamic".data)

/-- Translation of `change_link_feature` (main.rs lines 205-255) as invoked
recursively on a response file's values with a freshly created empty map
(main.rs lines 238-246): with an empty map the `@`-prefix branch finds no
entry and does nothing, so it coincides with the final fall-through and the
map plays no role.  Arguments after the fixed ones: `is_dynamic`, the
argument list; result: the rewritten list and the final `is_dynamic`. -/
def change_link_feature_inner (key : Tok) (is_linker : Option Tok) (dynamic_link : Bool) :
    Bool → List Tok → List Tok × Bool
  | d, [] => ([], d)
  | d, arg :: rest =>
    let sk := (link_keys is_linker).1
    let dk := (link_keys is_linker).2
    if arg = sk ∨ arg = "-dn".data ∨ arg = "-non_shared".data ∨ arg = "-static".data then
      let r := change_link_feature_inner key is_linker dynamic_link false rest
      (arg :: r.1, r.2)
    else if arg = dk ∨ arg = "-dy".data ∨ arg = "-call_shared".data then
      let r := change_link_feature_inner key is_linker dynamic_link true rest
      (arg :: r.1, r.2)
    else if arg = key ∧ d ≠ dynamic_link then
      let r := change_link_feature_inner key is_linker dynamic_link d rest
      ((if dynamic_link then dk else sk) :: arg :: (if dynamic_link then sk else dk) :: r.1, r.2)
    else
      let r := change_link_feature_inner key is_linker dynamic_link d rest
      (arg :: r.1, r.2)

/-- Translation of `change_link_feature` (main.rs lines 205-255) at the top
level, where the response map is live.  An `@path` token whose path is in
the map triggers the nested scan of that file's values (with an empty map,
hence `change_link_feature_inner`) seeded with the current `is_dynamic`;
the returned state continues the outer scan and the file is marked changed
when its length changed (main.rs lines 235-250). -/
def change_link_feature (key : Tok) (is_linker : Option Tok) (dynamic_link : Bool) :
    Bool → List Tok → ResponseMap → List Tok × Bool × ResponseMap
  | d, [], m => ([], d, m)
  | d, arg :: rest, m =>
    let sk := (link_keys is_linker).1
    let dk := (link_keys is_linker).2
    if arg = sk ∨ arg = "-dn".data ∨ arg = "-non_shared".data ∨ arg = "-static".data then
      let r := change_link_feature key is_linker dynamic_link false rest m
      (arg :: r.1, r.2)
    else if arg = dk ∨ arg = "-dy".data ∨ arg = "-call_shared".data then
      let r := change_link_feature key is_linker dynamic_link true rest m
      (arg :: r.1, r.2)
    else if arg = key ∧ d ≠ dynamic_link then
      let r := change_link_feature key is_linker dynamic_link d rest m
      ((if dynamic_link then dk else sk) :: arg :: (if dynamic_link then sk else dk) :: r.1, r.2)
    else if arg.head? = some '@' then
      match mlookup m arg.tail with
      | some f =>
        let p := change_link_feature_inner key is_linker dynamic_link d f.values
        let f' : ResponseFile :=
          { f with
            values := p.1
            changed := if f.values.length = p.1.length then f.changed else true }
        let r := change_link_feature key is_linker dynamic_link p.2 rest (mupdate m arg.tail f')
        (arg :: r.1, r.2)
      | none =>
        let r := change_link_feature key is_linker dynamic_link d rest m
        (arg :: r.1, r.2)
    else
      let r := change_link_feature key is_linker dynamic_link d rest m
      (arg :: r.1, r.2)

/-- Translation of the `Configuration` struct (main.rs lines 149-159). -/
structure Configuration where
  command : Tok
  work_dir : Tok
  just_print : Bool
  before_print : Bool
  redirect_stdout : Tok
  redirect_stderr : Tok
  arguments : List Tok
  response_map : ResponseMap
  log_file : Tok

/-- Translation of `static_link_feature` (main.rs lines 257-266). -/
def static_link_feature (key : Tok) (is_linker : Option Tok) (c : Configuration) :
    Configuration :=
  let r := change_link_feature key is_linker false true c.arguments c.response_map
  { c with arguments := r.1, response_map := r.2.2 }

/-- Translation of `dynamic_link_feature` (main.rs lines 268-277). -/
def dynamic_link_feature (key : Tok) (is_linker : Option Tok) (c : Configuration) :
    Configuration :=
  let r := change_link_feature key is_linker true true c.arguments c.response_map
  { c with arguments := r.1, response_map := r.2.2 }

/-- C5: LinkModeToggle with key foo.lib, desired dynamic, not invoked as
linker, applied to the tokens -static foo.lib, yields exactly
-static -Wl,-Bdynamic foo.lib -Wl,-Bstatic. -/
theorem c5_link_toggle_example :
    (dynamic_link_feature "foo.lib".data none
        ⟨[], [], false, false, [], [], ["-static".data, "foo.lib".data], [], []⟩).arguments
      = ["-static".data, "-Wl,-Bdynamic".data, "foo.lib".data, "-Wl,-Bstatic".data] := by
  decide

/-- C2 (counterexample): with key foo.lib, desired dynamic and current
state static, the flag inserted immediately before the key is the
desired-mode flag -Wl,-Bdynamic, not the flag for the opposite of the
desired mode as the claim states. -/
theorem c2_counterexample :
    (change_link_feature "foo.lib".data none true false ["foo.lib".data] []).1
        = ["-Wl,-Bdynamic".data, "foo.lib".data, "-Wl,-Bstatic".data] ∧
    (change_link_feature "foo.lib".data none true false ["foo.lib".data] []).1
        ≠ ["-Wl,-Bstatic".data, "foo.lib".data, "-Wl,-Bdynamic".data] := by
  decide

/-- C2 (amended): when the scanned token equals the key and the current
is_dynamic state disagrees with the desired mode, the engine inserts the
flag for the DESIRED mode immediately before the key and the flag for the
opposite mode immediately after it, moving no other token, and the scan
resumes after the inserted flags (the continuation processes only the
remaining suffix, from the same state). -/
theorem c2_insertion (key : Tok) (is_linker : Option Tok) (dynamic_link d : Bool)
    (pre rest : List Tok) (m : ResponseMap)
    (hd : d ≠ dynamic_link)
    (hk1 : key ≠ (link_keys is_linker).1) (hk2 : key ≠ (link_keys is_linker).2)
    (hk3 : key ≠ "-dn".data) (hk4 : key ≠ "-non_shared".data) (hk5 : key ≠ "-static".data)
    (hk6 : key ≠ "-dy".data) (hk7 : key ≠ "-call_shared".data)
    (hpre : ∀ x ∈ pre, x ≠ key ∧ x ≠ (link_keys is_linker).1 ∧ x ≠ (link_keys is_linker).2 ∧
      x ≠ "-dn".data ∧ x ≠ "-non_shared".data ∧ x ≠ "-static".data ∧
      x ≠ "-dy".data ∧ x ≠ "-call_shared".data ∧ x.head? ≠ some '@') :
    change_link_feature key is_linker dynamic_link d (pre ++ key :: rest) m =
      (pre ++
        (if dynamic_link then (link_keys is_linker).2 else (link_keys is_linker).1) :: key ::
          (if dynamic_link then (link_keys is_linker).1 else (link_keys is_linker).2) ::
          (change_link_feature key is_linker dynamic_link d rest m).1,
        (change_link_feature key is_linker dynamic_link d rest m).2) := by
  induction pre with
  | nil =>
    simp only [List.nil_append]
    simp only [change_link_feature]
    rw [if_neg (by simp [hk1, hk3, hk4, hk5]), if_neg (by simp [hk2, hk6, hk7])]
    simp [hd]
  | cons x pre ih =>
    obtain ⟨hx1, hx2, hx3, hx4, hx5, hx6, hx7, hx8, hx9⟩ :=
      hpre x (List.mem_cons_self x pre)
    have hpre' := fun y hy => hpre y (List.mem_cons_of_mem x hy)
    simp only [List.cons_append]
    simp only [change_link_feature]
    rw [if_neg (by simp [hx2, hx4, hx5, hx6]), if_neg (by simp [hx3, hx7, hx8]),
      if_neg (by exact fun hc => hx1 hc.1), if_neg hx9, ih hpre']

/-- C2 (witness): concrete instance of the bracketing insertion. -/
theorem c2_insertion_witness :
    change_link_feature "k".data none true false (["x".data] ++ "k".data :: []) [] =
      (["x".data] ++
        (if true then (link_keys none).2 else (link_keys none).1) :: "k".data ::
          (if true then (link_keys none).1 else (link_keys none).2) ::
          (change_link_feature "k".data none true false [] []).1,
        (change_link_feature "k".data none true false [] []).2) :=
  c2_insertion "k".data none true false ["x".data] [] [] (by decide) (by decide) (by decide)
    (by decide) (by decide) (by decide) (by decide) (by decide) (by decide)

theorem ne_of_head_ne (l1 l2 : List Char) (h : l1.head? ≠ l2.head?) : l1 ≠ l2 :=
  fun he => h (by rw [he])

theorem at_cons_ne (path : Tok) (c : Char) (s : List Char) (hc : c ≠ '@') :
    ('@' :: path) ≠ c :: s :=
  fun h => hc (by injection h with h1 _; exact h1.symm)

/-- The nested link-mode scan only inserts: the output is at least as long
as the input, and when the length is unchanged the list is unchanged. -/
theorem change_link_feature_inner_growth (key : Tok) (is_linker : Option Tok)
    (dynamic_link : Bool) : ∀ (l : List Tok) (d : Bool),
    l.length ≤ (change_link_feature_inner key is_linker dynamic_link d l).1.length ∧
    ((change_link_feature_inner key is_linker dynamic_link d l).1.length = l.length →
      (change_link_feature_inner key is_linker dynamic_link d l).1 = l) := by
  intro l
  induction l with
  | nil => intro d; simp [change_link_feature_inner]
  | cons a rest ih =>
    intro d
    have hf1 := (ih false).1
    have ht1 := (ih true).1
    have hd1 := (ih d).1
    simp only [change_link_feature_inner]
    split_ifs with h1 h2 h3 h4
    · refine ⟨by dsimp only; simp only [List.length_cons]; omega, fun hlen => ?_⟩
      dsimp only at hlen ⊢
      simp only [List.length_cons] at hlen
      have h := (ih false).2 (by omega)
      rw [h]
    · refine ⟨by dsimp only; simp only [List.length_cons]; omega, fun hlen => ?_⟩
      dsimp only at hlen ⊢
      simp only [List.length_cons] at hlen
      have h := (ih true).2 (by omega)
      rw [h]
    · refine ⟨by dsimp only; simp only [List.length_cons]; omega, fun hlen => ?_⟩
      exfalso
      dsimp only at hlen
      simp only [List.length_cons] at hlen
      omega
    · refine ⟨by dsimp only; simp only [List.length_cons]; omega, fun hlen => ?_⟩
      exfalso
      dsimp only at hlen
      simp only [List.length_cons] at hlen
      omega
    · refine ⟨by dsimp only; simp only [List.length_cons]; omega, fun hlen => ?_⟩
      dsimp only at hlen ⊢
      simp only [List.length_cons] at hlen
      have h := (ih d).2 (by omega)
      rw [h]

/-- C6: an at-path token for a loaded response file triggers the nested
scan of that file's values seeded with the pre-recursion is_dynamic value;
the outer scan continues from the nested scan's final state on the
remaining tokens with the map updated in place, the at-token itself is
kept, and (starting from changed = false) the file's changed flag ends up
true exactly when the nested scan inserted at least one flag. -/
theorem c6_nested_scan (key : Tok) (is_linker : Option Tok) (dynamic_link d : Bool)
    (path : Tok) (f : ResponseFile) (m : ResponseMap) (rest : List Tok)
    (p : List Tok × Bool) (f' : ResponseFile)
    (hm : mlookup m path = some f) (hk : ('@' :: path) ≠ key) (hch : f.changed = false)
    (hp : p = change_link_feature_inner key is_linker dynamic_link d f.values)
    (hf' : f' = ⟨f.original_path, f.new_path, p.1,
      if f.values.length = p.1.length then f.changed else true⟩) :
    change_link_feature key is_linker dynamic_link d (('@' :: path) :: rest) m =
      (('@' :: path) ::
          (change_link_feature key is_linker dynamic_link p.2 rest (mupdate m path f')).1,
        (change_link_feature key is_linker dynamic_link p.2 rest (mupdate m path f')).2) ∧
    (f'.changed = true ↔ p.1 ≠ f.values) := by
  have hsk : ('@' :: path) ≠ (link_keys is_linker).1 := by
    cases is_linker <;> exact at_cons_ne path '-' _ (by decide)
  have hdk : ('@' :: path) ≠ (link_keys is_linker).2 := by
    cases is_linker <;> exact at_cons_ne path '-' _ (by decide)
  have hdn : ('@' :: path) ≠ "-dn".data := at_cons_ne path '-' _ (by decide)
  have hns : ('@' :: path) ≠ "-non_shared".data := at_cons_ne path '-' _ (by decide)
  have hst : ('@' :: path) ≠ "-static".data := at_cons_ne path '-' _ (by decide)
  have hdy : ('@' :: path) ≠ "-dy".data := at_cons_ne path '-' _ (by decide)
  have hcs : ('@' :: path) ≠ "-call_shared".data := at_cons_ne path '-' _ (by decide)
  subst hp hf'
  constructor
  · simp only [change_link_feature]
    rw [if_neg (by simp [hsk, hdn, hns, hst]), if_neg (by simp [hdk, hdy, hcs]),
      if_neg (fun hc => hk hc.1), if_pos (show List.head? ('@' :: path) = some '@' from rfl),
      show List.tail ('@' :: path) = path from rfl, hm]
  · rw [hch]
    by_cases hlen :
        f.values.length = (change_link_feature_inner key is_linker dynamic_link d f.values).1.length
    · rw [if_pos hlen]
      have heq := (change_link_feature_inner_growth key is_linker dynamic_link f.values d).2
        hlen.symm
      simp [heq]
    · rw [if_neg hlen]
      exact ⟨fun _ he => hlen (congrArg List.length he).symm, fun _ => rfl⟩

/-- C6 (witness): a concrete nested scan that inserts, marking the file
changed. -/
theorem c6_nested_scan_witness :
    change_link_feature "k".data none true false (('@' :: "r".data) :: []) [("r".data,
        ⟨"r".data, "s".data, ["k".data], false⟩)] =
      (('@' :: "r".data) ::
          (change_link_feature "k".data none true
            (change_link_feature_inner "k".data none true false ["k".data]).2 []
            (mupdate [("r".data, ⟨"r".data, "s".data, ["k".data], false⟩)] "r".data
              ⟨"r".data, "s".data,
                (change_link_feature_inner "k".data none true false ["k".data]).1,
                if (["k".data] : List Tok).length =
                    (change_link_feature_inner "k".data none true false ["k".data]).1.length
                  then false else true⟩)).1,
        (change_link_feature "k".data none true
            (change_link_feature_inner "k".data none true false ["k".data]).2 []
            (mupdate [("r".data, ⟨"r".data, "s".data, ["k".data], false⟩)] "r".data
              ⟨"r".data, "s".data,
                (change_link_feature_inner "k".data none true false ["k".data]).1,
                if (["k".data] : List Tok).length =
                    (change_link_feature_inner "k".data none true false ["k".data]).1.length
                  then false else true⟩)).2) ∧
    ((⟨"r".data, "s".data,
        (change_link_feature_inner "k".data none true false ["k".data]).1,
        if (["k".data] : List Tok).length =
            (change_link_feature_inner "k".data none true false ["k".data]).1.length
          then false else true⟩ : ResponseFile).changed = true ↔
      (change_link_feature_inner "k".data none true false ["k".data]).1 ≠ ["k".data]) :=
  c6_nested_scan "k".data none true false "r".data
    ⟨"r".data, "s".data, ["k".data], false⟩
    [("r".data, ⟨"r".data, "s".data, ["k".data], false⟩)] []
    (change_link_feature_inner "k".data none true false ["k".data])
    ⟨"r".data, "s".data,
      (change_link_feature_inner "k".data none true false ["k".data]).1,
      if (["k".data] : List Tok).length =
          (change_link_feature_inner "k".data none true false ["k".data]).1.length
        then false else true⟩
    (by decide) (by decide) rfl rfl rfl

/-- Models Rust `str::ends_with(&value)`: `value` is a suffix of the token. -/
def endsWithTok (t value : Tok) : Bool :=
  List.isSuffixOf value t

/-- The guard `i > 1 && args[i - 1].ends_with(before)` of `remove_argument`
(main.rs line 309): `left` is the already-kept prefix of the evolving list,
so `i = left.length` and `args[i - 1]` is the last element of `left`. -/
def lastMatches (left : List Tok) (anchor : Tok) : Bool :=
  match left.getLast? with
  | some p => endsWithTok p anchor
  | none => false

/-- Models `if !result.contains(&lib) { result.push(lib) }` (main.rs lines
311-313, 319-321, 325-327). -/
def pushIfNew (result : List Tok) (t : Tok) : List Tok :=
  if t ∈ result then result else result ++ [t]

/-- One iteration of the `remove_argument` loop body (main.rs lines
288-331) at the last index (`i = args.len() - 1`, so nothing follows `t`),
for the recursive invocation with an empty map: the `@` branch finds no
entry, the after-anchored guard `i < args.len() - 1` is false, a
before-anchored removal ends the scan with `left` unchanged, and an
unanchored removal ends the scan likewise. -/
def remove_argument_inner_last (value : Tok) (before after : Option Tok)
    (left result : List Tok) (t : Tok) : List Tok × List Tok :=
  if t.head? = some '@' then (left ++ [t], result)
  else if endsWithTok t value then
    match before with
    | some b =>
      if 1 < left.length ∧ lastMatches left b = true then (left, pushIfNew result t)
      else (left ++ [t], result)
    | none =>
      match after with
      | some _ => (left ++ [t], result)
      | none => (left, pushIfNew result t)
  else (left ++ [t], result)

/-- Translation of `remove_argument` (main.rs lines 279-333) as invoked
recursively on a response file's values with a freshly created empty map
(main.rs lines 291-297): the `@`-prefix branch then finds no entry and only
advances.  State: `left` is the prefix of the evolving argument list before
the scan index `i` (elements before `i` are never revisited), `result` is
the collected list; removal in the before-anchored branch continues at the
same index (the `continue` at line 314), while the after-anchored and
unanchored branches remove and then still advance the index, skipping the
element `r1` that slid into position `i`.  The one-element case is the
last loop iteration, delegated to `remove_argument_inner_last`. -/
def remove_argument_inner (value : Tok) (before after : Option Tok) :
    List Tok → List Tok → List Tok → List Tok × List Tok
  | left, result, [] => (left, result)
  | left, result, [t] => remove_argument_inner_last value before after left result t
  | left, result, t :: r1 :: rtail =>
    if t.head? = some '@' then
      remove_argument_inner value before after (left ++ [t]) result (r1 :: rtail)
    else if endsWithTok t value then
      match before with
      | some b =>
        if 1 < left.length ∧ lastMatches left b = true then
          remove_argument_inner value before after left (pushIfNew result t) (r1 :: rtail)
        else
          remove_argument_inner value before after (left ++ [t]) result (r1 :: rtail)
      | none =>
        match after with
        | some a =>
          if endsWithTok r1 a then
            remove_argument_inner value before after (left ++ [r1]) (pushIfNew result t) rtail
          else
            remove_argument_inner value before after (left ++ [t]) result (r1 :: rtail)
        | none =>
          remove_argument_inner value before after (left ++ [r1]) (pushIfNew result t) rtail
    else
      remove_argument_inner value before after (left ++ [t]) result (r1 :: rtail)

/-- The last loop iteration of the top-level `remove_argument` (map live):
an `@path` token with a loaded file still runs the nested scan and stores
the results; everything else is as in `remove_argument_inner_last`. -/
def remove_argument_last (value : Tok) (before after : Option Tok) (m : ResponseMap)
    (left result : List Tok) (t : Tok) : List Tok × List Tok × ResponseMap :=
  if t.head? = some '@' then
    match mlookup m t.tail with
    | some f =>
      let inner := remove_argument_inner value before after [] [] f.values
      (left ++ [t], result ++ inner.2.filter (fun e => !(decide (e ∈ result))),
        mupdate m t.tail { f with values := inner.1 })
    | none => (left ++ [t], result, m)
  else if endsWithTok t value then
    match before with
    | some b =>
      if 1 < left.length ∧ lastMatches left b = true then (left, pushIfNew result t, m)
      else (left ++ [t], result, m)
    | none =>
      match after with
      | some _ => (left ++ [t], result, m)
      | none => (left, pushIfNew result t, m)
  else (left ++ [t], result, m)

/-- Translation of `remove_argument` (main.rs lines 279-333) at the top
level, where the response map is live: an `@path` token with a loaded file
runs the same scan on the file's values with an empty map and a fresh
result, stores the rewritten values back (without touching `changed`), and
appends the collected elements not already present to the outer result
(main.rs lines 289-305). -/
def remove_argument (value : Tok) (before after : Option Tok) :
    ResponseMap → List Tok → List Tok → List Tok → List Tok × List Tok × ResponseMap
  | m, left, result, [] => (left, result, m)
  | m, left, result, [t] => remove_argument_last value before after m left result t
  | m, left, result, t :: r1 :: rtail =>
    if t.head? = some '@' then
      match mlookup m t.tail with
      | some f =>
        let inner := remove_argument_inner value before after [] [] f.values
        let result' := result ++ inner.2.filter (fun e => !(decide (e ∈ result)))
        remove_argument value before after (mupdate m t.tail { f with values := inner.1 })
          (left ++ [t]) result' (r1 :: rtail)
      | none => remove_argument value before after m (left ++ [t]) result (r1 :: rtail)
    else if endsWithTok t value then
      match before with
      | some b =>
        if 1 < left.length ∧ lastMatches left b = true then
          remove_argument value before after m left (pushIfNew result t) (r1 :: rtail)
        else
          remove_argument value before after m (left ++ [t]) result (r1 :: rtail)
      | none =>
        match after with
        | some a =>
          if endsWithTok r1 a then
            remove_argument value before after m (left ++ [r1]) (pushIfNew result t) rtail
          else
            remove_argument value before after m (left ++ [t]) result (r1 :: rtail)
        | none =>
          remove_argument value before after m (left ++ [r1]) (pushIfNew result t) rtail
    else
      remove_argument value before after m (left ++ [t]) result (r1 :: rtail)

/-- Translation of `move_to_back_for_before_feature` (main.rs lines
335-345): collect with a before-anchor and append at the end. -/
def move_to_back_for_before_feature (value : Tok) (before : Option Tok)
    (c : Configuration) : Configuration :=
  let r := remove_argument value before none c.response_map [] [] c.arguments
  { c with arguments := r.1 ++ r.2.1, response_map := r.2.2 }

/-- Translation of `move_to_back_for_after_feature` (main.rs lines
347-356). -/
def move_to_back_for_after_feature (value : Tok) (after : Option Tok)
    (c : Configuration) : Configuration :=
  let r := remove_argument value none after c.response_map [] [] c.arguments
  { c with arguments := r.1 ++ r.2.1, response_map := r.2.2 }

/-- Translation of `move_to_front_for_before_feature` (main.rs lines
358-371): collect with a before-anchor and splice at index 0. -/
def move_to_front_for_before_feature (value : Tok) (before : Option Tok)
    (c : Configuration) : Configuration :=
  let r := remove_argument value before none c.response_map [] [] c.arguments
  { c with arguments := r.2.1 ++ r.1, response_map := r.2.2 }

/-- Translation of `move_to_front_for_after_feature` (main.rs lines
373-382). -/
def move_to_front_for_after_feature (value : Tok) (after : Option Tok)
    (c : Configuration) : Configuration :=
  let r := remove_argument value none after c.response_map [] [] c.arguments
  { c with arguments := r.2.1 ++ r.1, response_map := r.2.2 }


/-- A token that starts with at (with no further handling) or does not
suffix-match the value is kept and the scan advances. -/
theorem remove_argument_inner_keep (value : Tok) (b a : Option Tok)
    (left result : List Tok) (t : Tok) (rest : List Tok)
    (h : t.head? = some '@' ∨ endsWithTok t value = false) :
    remove_argument_inner value b a left result (t :: rest) =
      remove_argument_inner value b a (left ++ [t]) result rest := by
  cases rest with
  | nil =>
    simp only [remove_argument_inner, remove_argument_inner_last]
    rcases h with h | h
    · rw [if_pos h]
    · by_cases hat : t.head? = some '@'
      · rw [if_pos hat]
      · rw [if_neg hat, if_neg (by simp [h])]
  | cons r1 rtail =>
    simp only [remove_argument_inner]
    rcases h with h | h
    · rw [if_pos h]
    · by_cases hat : t.head? = some '@'
      · rw [if_pos hat]
      · rw [if_neg hat, if_neg (by simp [h])]

/-- Top-level keep step: a token that is not at-prefixed and does not
suffix-match the value is kept unchanged and the scan advances. -/
theorem remove_argument_keep (value : Tok) (b a : Option Tok) (m : ResponseMap)
    (left result : List Tok) (t : Tok) (rest : List Tok)
    (h1 : ¬(t.head? = some '@')) (h2 : endsWithTok t value = false) :
    remove_argument value b a m left result (t :: rest) =
      remove_argument value b a m (left ++ [t]) result rest := by
  cases rest with
  | nil =>
    simp only [remove_argument, remove_argument_last]
    rw [if_neg h1, if_neg (by simp [h2])]
  | cons r1 rtail =>
    simp only [remove_argument]
    rw [if_neg h1, if_neg (by simp [h2])]

/-- Non-matching, non-at tokens pass through the scan unchanged, moving
from the unscanned suffix to the kept prefix. -/
theorem remove_argument_walk (value : Tok) (before after : Option Tok) (m : ResponseMap) :
    ∀ (pre left result l : List Tok),
    (∀ x ∈ pre, x.head? ≠ some '@' ∧ endsWithTok x value = false) →
    remove_argument value before after m left result (pre ++ l) =
      remove_argument value before after m (left ++ pre) result l := by
  intro pre
  induction pre with
  | nil => intro left result l _; simp
  | cons x pre ih =>
    intro left result l h
    obtain ⟨hx1, hx2⟩ := h x (List.mem_cons_self x pre)
    have h' := fun y hy => h y (List.mem_cons_of_mem x hy)
    rw [List.cons_append, remove_argument_keep value before after m left result x _ hx1 hx2,
      ih (left ++ [x]) result l h']
    simp

/-- C3 (counterexample): a suffix-matching token at index 1 whose
predecessor at index 0 suffix-matches the anchor is NOT collected: the
guard at main.rs line 309 is `i > 1`, so with this input the argument list
is returned unchanged and nothing is collected. -/
theorem c3_counterexample :
    (remove_argument "v".data (some "a".data) none [] [] [] ["pa".data, "tv".data]).1
        = ["pa".data, "tv".data] ∧
    "tv".data ∉ (remove_argument "v".data (some "a".data) none [] [] [] ["pa".data, "tv".data]).2.1 := by
  decide

/-- C3 (amended): with a before-anchor, the first suffix-matching token
(preceded only by non-matching, non-at tokens) is collected exactly when
its index in the evolving list is at least 2 and the immediately preceding
token's suffix equals the anchor; when collected it is removed and the
scan continues at the same position with it pushed to the result,
otherwise it stays in place. -/
theorem c3_before_anchor (value anchor : Tok) (pre : List Tok) (t : Tok) (rest : List Tok)
    (m : ResponseMap)
    (hpre : ∀ x ∈ pre, x.head? ≠ some '@' ∧ endsWithTok x value = false)
    (ht1 : t.head? ≠ some '@') (ht2 : endsWithTok t value = true) :
    remove_argument value (some anchor) none m [] [] (pre ++ t :: rest) =
      if 1 < pre.length ∧ lastMatches pre anchor = true then
        remove_argument value (some anchor) none m pre [t] rest
      else
        remove_argument value (some anchor) none m (pre ++ [t]) [] rest := by
  rw [remove_argument_walk value (some anchor) none m pre [] [] (t :: rest) hpre]
  simp only [List.nil_append]
  cases rest with
  | nil =>
    simp only [remove_argument, remove_argument_last]
    rw [if_neg ht1, if_pos ht2]
    split_ifs with hg
    · simp [pushIfNew]
    · rfl
  | cons r1 rtail =>
    simp only [remove_argument]
    rw [if_neg ht1, if_pos ht2]
    split_ifs with hg
    · simp [pushIfNew]
    · rfl

/-- C3 (witness): concrete instance with a kept prefix of length two whose
last element suffix-matches the anchor, so the matching token at index 2
is collected. -/
theorem c3_before_anchor_witness :
    remove_argument "v".data (some "a".data) none [] [] []
        (["p".data, "qa".data] ++ "tv".data :: []) =
      if 1 < (["p".data, "qa".data] : List Tok).length ∧
          lastMatches ["p".data, "qa".data] "a".data = true then
        remove_argument "v".data (some "a".data) none [] ["p".data, "qa".data]
          ["tv".data] []
      else
        remove_argument "v".data (some "a".data) none []
          (["p".data, "qa".data] ++ ["tv".data]) [] [] :=
  c3_before_anchor "v".data "a".data ["p".data, "qa".data] "tv".data [] []
    (by decide) (by decide) (by decide)

theorem mupdate_self : ∀ (m : ResponseMap) (p : Tok) (f : ResponseFile),
    mlookup m p = some f → mupdate m p f = m := by
  intro m
  induction m with
  | nil => intro p f h; simp [mlookup] at h
  | cons e m ih =>
    intro p f h
    obtain ⟨k, g⟩ := e
    by_cases hk : k = p
    · have hg : g = f := by simpa [mlookup, hk] using h
      simp [mupdate, hk, hg]
    · have h' : mlookup m p = some f := by simpa [mlookup, hk] using h
      simp [mupdate, hk, ih p f h']

/-- A nested scan in which no token suffix-matches the value removes
nothing and collects nothing. -/
theorem remove_argument_inner_nomatch (value : Tok) (b a : Option Tok) :
    ∀ (l left result : List Tok),
    (∀ x ∈ l, endsWithTok x value = false) →
    remove_argument_inner value b a left result l = (left ++ l, result) := by
  intro l
  induction l with
  | nil => intro left result _; simp [remove_argument_inner]
  | cons t rest ih =>
    intro left result h
    have ht := h t (List.mem_cons_self t rest)
    have h' := fun y hy => h y (List.mem_cons_of_mem t hy)
    rw [remove_argument_inner_keep value b a left result t rest (Or.inr ht),
      ih (left ++ [t]) result h']
    simp

/-- Top-level version of the no-match frame property, covering loaded
response files as well: the argument list, the result and the map are all
returned unchanged. -/
theorem remove_argument_nomatch (value : Tok) (b a : Option Tok) :
    ∀ (l : List Tok) (m : ResponseMap) (left result : List Tok),
    (∀ x ∈ l, endsWithTok x value = false) →
    (∀ p f, mlookup m p = some f → ∀ x ∈ f.values, endsWithTok x value = false) →
    remove_argument value b a m left result l = (left ++ l, result, m) := by
  intro l
  induction l with
  | nil => intro m left result _ _; simp [remove_argument]
  | cons t rest ih =>
    intro m left result h hm
    have ht := h t (List.mem_cons_self t rest)
    have h' := fun y hy => h y (List.mem_cons_of_mem t hy)
    by_cases hat : t.head? = some '@'
    · cases hml : mlookup m t.tail with
      | none =>
        have hstep : remove_argument value b a m left result (t :: rest) =
            remove_argument value b a m (left ++ [t]) result rest := by
          cases rest with
          | nil =>
            simp only [remove_argument, remove_argument_last]
            rw [if_pos hat, hml]
          | cons r1 rtail =>
            simp only [remove_argument]
            rw [if_pos hat, hml]
        rw [hstep, ih m (left ++ [t]) result h' hm]
        simp
      | some f =>
        have hfv := hm t.tail f hml
        have hinner : remove_argument_inner value b a [] [] f.values = (f.values, []) := by
          simpa using remove_argument_inner_nomatch value b a f.values [] [] hfv
        have hstep : remove_argument value b a m left result (t :: rest) =
            remove_argument value b a m (left ++ [t]) result rest := by
          cases rest with
          | nil =>
            simp only [remove_argument, remove_argument_last]
            rw [if_pos hat, hml]
            dsimp only
            rw [hinner]
            rw [show ({ f with values := (f.values, ([] : List Tok)).1 } : ResponseFile) = f
              from rfl]
            rw [mupdate_self m t.tail f hml]
            simp
          | cons r1 rtail =>
            simp only [remove_argument]
            rw [if_pos hat, hml]
            dsimp only
            rw [hinner]
            rw [show ({ f with values := (f.values, ([] : List Tok)).1 } : ResponseFile) = f
              from rfl]
            rw [mupdate_self m t.tail f hml]
            simp
        rw [hstep, ih m (left ++ [t]) result h' hm]
        simp
    · rw [remove_argument_keep value b a m left result t rest hat ht,
        ih m (left ++ [t]) result h' hm]
      simp

/-- C7: an anchored-relocate invocation (any value, any anchor, any
direction) in which no token of the top-level list and no token of any
loaded response file suffix-matches the value leaves the top-level
argument list identical in content and order. -/
theorem c7_no_match_frame (value : Tok) (b a : Option Tok) (cfg : Configuration)
    (h : ∀ x ∈ cfg.arguments, endsWithTok x value = false)
    (hm : ∀ p f, mlookup cfg.response_map p = some f →
      ∀ x ∈ f.values, endsWithTok x value = false) :
    (move_to_back_for_before_feature value b cfg).arguments = cfg.arguments ∧
    (move_to_back_for_after_feature value a cfg).arguments = cfg.arguments ∧
    (move_to_front_for_before_feature value b cfg).arguments = cfg.arguments ∧
    (move_to_front_for_after_feature value a cfg).arguments = cfg.arguments := by
  have h1 := remove_argument_nomatch value b none cfg.arguments cfg.response_map [] [] h hm
  have h2 := remove_argument_nomatch value none a cfg.arguments cfg.response_map [] [] h hm
  refine ⟨?_, ?_, ?_, ?_⟩ <;>
    simp [move_to_back_for_before_feature, move_to_back_for_after_feature,
      move_to_front_for_before_feature, move_to_front_for_after_feature, h1, h2]

/-- C7 (witness): a concrete relocate with no matching token anywhere. -/
theorem c7_no_match_frame_witness :
    (move_to_back_for_before_feature "z".data none
        ⟨[], [], false, false, [], [], ["b".data], [], []⟩).arguments
      = (⟨[], [], false, false, [], [], ["b".data], [], []⟩ : Configuration).arguments ∧
    (move_to_back_for_after_feature "z".data none
        ⟨[], [], false, false, [], [], ["b".data], [], []⟩).arguments
      = (⟨[], [], false, false, [], [], ["b".data], [], []⟩ : Configuration).arguments ∧
    (move_to_front_for_before_feature "z".data none
        ⟨[], [], false, false, [], [], ["b".data], [], []⟩).arguments
      = (⟨[], [], false, false, [], [], ["b".data], [], []⟩ : Configuration).arguments ∧
    (move_to_front_for_after_feature "z".data none
        ⟨[], [], false, false, [], [], ["b".data], [], []⟩).arguments
      = (⟨[], [], false, false, [], [], ["b".data], [], []⟩ : Configuration).arguments :=
  c7_no_match_frame "z".data none none ⟨[], [], false, false, [], [], ["b".data], [], []⟩
    (by decide) (by intro p f hpf; simp [mlookup] at hpf)

/-- Whether a token is a response-file reference (starts with at). -/
def isAtTok (t : Tok) : Bool :=
  decide (t.head? = some '@')

theorem pushIfNew_at (result : List Tok) (t : Tok)
    (hres : ∀ x ∈ result, isAtTok x = false) (ht : isAtTok t = false) :
    ∀ x ∈ pushIfNew result t, isAtTok x = false := by
  intro x hx
  unfold pushIfNew at hx
  split_ifs at hx
  · exact hres x hx
  · rcases List.mem_append.mp hx with h | h
    · exact hres x h
    · simp only [List.mem_singleton] at h
      subst h
      exact ht

theorem remove_argument_inner_last_at (value : Tok) (b a : Option Tok)
    (left result : List Tok) (t : Tok)
    (hres : ∀ x ∈ result, isAtTok x = false) :
    (∀ x ∈ (remove_argument_inner_last value b a left result t).2, isAtTok x = false) ∧
    (remove_argument_inner_last value b a left result t).1.filter isAtTok =
      left.filter isAtTok ++ [t].filter isAtTok := by
  unfold remove_argument_inner_last
  by_cases hat : t.head? = some '@'
  · rw [if_pos hat]
    exact ⟨hres, by simp [List.filter_append]⟩
  · have htat : isAtTok t = false := by simp [isAtTok, hat]
    rw [if_neg hat]
    by_cases hend : endsWithTok t value = true
    · rw [if_pos hend]
      cases b with
      | some bb =>
        dsimp only
        split_ifs with hg
        · exact ⟨pushIfNew_at result t hres htat, by simp [htat]⟩
        · exact ⟨hres, by simp [List.filter_append]⟩
      | none =>
        cases a with
        | some aa => exact ⟨hres, by simp [List.filter_append]⟩
        | none => exact ⟨pushIfNew_at result t hres htat, by simp [htat]⟩
    · rw [if_neg hend]
      exact ⟨hres, by simp [List.filter_append]⟩

/-- The nested scan never collects an at-token and preserves the at-token
subsequence of the list being scanned. -/
theorem remove_argument_inner_at (value : Tok) (b a : Option Tok) :
    ∀ (left result l : List Tok),
    (∀ x ∈ result, isAtTok x = false) →
    (∀ x ∈ (remove_argument_inner value b a left result l).2, isAtTok x = false) ∧
    (remove_argument_inner value b a left result l).1.filter isAtTok =
      left.filter isAtTok ++ l.filter isAtTok := by
  intro left result l
  induction left, result, l using remove_argument_inner.induct value b a with
  | case1 left result =>
    intro hres
    exact ⟨hres, by simp [remove_argument_inner]⟩
  | case2 left result t =>
    intro hres
    simpa [remove_argument_inner] using
      remove_argument_inner_last_at value b a left result t hres
  | case3 left result t r1 rtail hat ih =>
    intro hres
    have htat : isAtTok t = true := by simp [isAtTok, hat]
    have happ : remove_argument_inner value b a left result (t :: r1 :: rtail) =
        remove_argument_inner value b a (left ++ [t]) result (r1 :: rtail) := by
      simp only [remove_argument_inner]
      rw [if_pos hat]
    obtain ⟨ih1, ih2⟩ := ih hres
    refine ⟨by rw [happ]; exact ih1, ?_⟩
    rw [happ, ih2]
    simp [List.filter_append, List.filter_cons, htat]
  | case4 left result t r1 rtail hat hend p hb hg ih =>
    intro hres
    subst hb
    have htat : isAtTok t = false := by simp [isAtTok, hat]
    have happ : remove_argument_inner value (some p) a left result (t :: r1 :: rtail) =
        remove_argument_inner value (some p) a left (pushIfNew result t) (r1 :: rtail) := by
      simp only [remove_argument_inner]
      rw [if_neg hat, if_pos hend]
      rw [if_pos hg]
    obtain ⟨ih1, ih2⟩ := ih (pushIfNew_at result t hres htat)
    refine ⟨by rw [happ]; exact ih1, ?_⟩
    rw [happ, ih2]
    simp [List.filter_cons, htat]
  | case5 left result t r1 rtail hat hend p hb hg ih =>
    intro hres
    subst hb
    have htat : isAtTok t = false := by simp [isAtTok, hat]
    have happ : remove_argument_inner value (some p) a left result (t :: r1 :: rtail) =
        remove_argument_inner value (some p) a (left ++ [t]) result (r1 :: rtail) := by
      simp only [remove_argument_inner]
      rw [if_neg hat, if_pos hend]
      rw [if_neg hg]
    obtain ⟨ih1, ih2⟩ := ih hres
    refine ⟨by rw [happ]; exact ih1, ?_⟩
    rw [happ, ih2]
    simp [List.filter_append, List.filter_cons, htat]
  | case6 left result t r1 rtail hat hend hb p ha hr1 ih =>
    intro hres
    subst hb ha
    have htat : isAtTok t = false := by simp [isAtTok, hat]
    have happ : remove_argument_inner value none (some p) left result (t :: r1 :: rtail) =
        remove_argument_inner value none (some p) (left ++ [r1]) (pushIfNew result t) rtail := by
      simp only [remove_argument_inner]
      rw [if_neg hat, if_pos hend]
      rw [if_pos hr1]
    obtain ⟨ih1, ih2⟩ := ih (pushIfNew_at result t hres htat)
    refine ⟨by rw [happ]; exact ih1, ?_⟩
    rw [happ, ih2]
    simp [List.filter_append, List.filter_cons, htat]
    split_ifs <;> simp
  | case7 left result t r1 rtail hat hend hb p ha hr1 ih =>
    intro hres
    subst hb ha
    have htat : isAtTok t = false := by simp [isAtTok, hat]
    have happ : remove_argument_inner value none (some p) left result (t :: r1 :: rtail) =
        remove_argument_inner value none (some p) (left ++ [t]) result (r1 :: rtail) := by
      simp only [remove_argument_inner]
      rw [if_neg hat, if_pos hend]
      rw [if_neg hr1]
    obtain ⟨ih1, ih2⟩ := ih hres
    refine ⟨by rw [happ]; exact ih1, ?_⟩
    rw [happ, ih2]
    simp [List.filter_append, List.filter_cons, htat]
  | case8 left result t r1 rtail hat hend hb ha ih =>
    intro hres
    subst hb ha
    have htat : isAtTok t = false := by simp [isAtTok, hat]
    have happ : remove_argument_inner value none none left result (t :: r1 :: rtail) =
        remove_argument_inner value none none (left ++ [r1]) (pushIfNew result t) rtail := by
      simp only [remove_argument_inner]
      rw [if_neg hat, if_pos hend]
    obtain ⟨ih1, ih2⟩ := ih (pushIfNew_at result t hres htat)
    refine ⟨by rw [happ]; exact ih1, ?_⟩
    rw [happ, ih2]
    simp [List.filter_append, List.filter_cons, htat]
    split_ifs <;> simp
  | case9 left result t r1 rtail hat hend ih =>
    intro hres
    have htat : isAtTok t = false := by simp [isAtTok, hat]
    have happ : remove_argument_inner value b a left result (t :: r1 :: rtail) =
        remove_argument_inner value b a (left ++ [t]) result (r1 :: rtail) := by
      simp only [remove_argument_inner]
      rw [if_neg hat, if_neg hend]
    obtain ⟨ih1, ih2⟩ := ih hres
    refine ⟨by rw [happ]; exact ih1, ?_⟩
    rw [happ, ih2]
    simp [List.filter_append, List.filter_cons, htat]

theorem mlookup_mupdate : ∀ (m : ResponseMap) (p : Tok) (f f' : ResponseFile),
    mlookup m p = some f →
    ∀ q, mlookup (mupdate m p f') q = if q = p then some f' else mlookup m q := by
  intro m
  induction m with
  | nil => intro p f f' hm; simp [mlookup] at hm
  | cons e m ih =>
    intro p f f' hm q
    obtain ⟨k, g⟩ := e
    by_cases hk : k = p
    · subst hk
      simp only [mupdate, if_pos rfl]
      by_cases hq : k = q
      · subst hq
        simp [mlookup]
      · have hq' : ¬(q = k) := fun h => hq h.symm
        simp [mlookup, hq, hq']
    · have hm' : mlookup m p = some f := by simpa [mlookup, hk] using hm
      simp only [mupdate, if_neg hk]
      by_cases hq : k = q
      · subst hq
        have hq' : ¬(k = p) := hk
        simp [mlookup, hq']
      · simp [mlookup, hq, ih p f f' hm' q]

theorem remove_argument_last_at (value : Tok) (b a : Option Tok) (m : ResponseMap)
    (left result : List Tok) (t : Tok)
    (hres : ∀ x ∈ result, isAtTok x = false) :
    (∀ x ∈ (remove_argument_last value b a m left result t).2.1, isAtTok x = false) ∧
    (remove_argument_last value b a m left result t).1.filter isAtTok =
      left.filter isAtTok ++ [t].filter isAtTok ∧
    (∀ q, (mlookup (remove_argument_last value b a m left result t).2.2 q).map
        (fun f => f.values.filter isAtTok) =
      (mlookup m q).map (fun f => f.values.filter isAtTok)) := by
  unfold remove_argument_last
  by_cases hat : t.head? = some '@'
  · rw [if_pos hat]
    cases hml : mlookup m t.tail with
    | none => exact ⟨hres, by simp [List.filter_append], fun q => rfl⟩
    | some f =>
      obtain ⟨hin1, hin2⟩ :=
        remove_argument_inner_at value b a [] [] f.values (by simp)
      refine ⟨?_, by simp [List.filter_append], ?_⟩
      · intro x hx
        rcases List.mem_append.mp hx with h | h
        · exact hres x h
        · exact hin1 x (List.mem_of_mem_filter h)
      · intro q
        rw [mlookup_mupdate m t.tail f _ hml q]
        by_cases hq : q = t.tail
        · subst hq
          rw [if_pos rfl, hml]
          simpa using hin2
        · rw [if_neg hq]
  · rw [if_neg hat]
    have htat : isAtTok t = false := by simp [isAtTok, hat]
    by_cases hend : endsWithTok t value = true
    · rw [if_pos hend]
      cases b with
      | some bb =>
        dsimp only
        split_ifs with hg
        · exact ⟨pushIfNew_at result t hres htat, by simp [htat], fun q => rfl⟩
        · exact ⟨hres, by simp [List.filter_append], fun q => rfl⟩
      | none =>
        cases a with
        | some aa => exact ⟨hres, by simp [List.filter_append], fun q => rfl⟩
        | none => exact ⟨pushIfNew_at result t hres htat, by simp [htat], fun q => rfl⟩
    · rw [if_neg hend]
      exact ⟨hres, by simp [List.filter_append], fun q => rfl⟩

/-- The top-level scan never collects an at-token, preserves the at-token
subsequence of the scanned list, and preserves the at-token subsequence of
every loaded response file's values. -/
theorem remove_argument_at (value : Tok) (b a : Option Tok) :
    ∀ (m : ResponseMap) (left result l : List Tok),
    (∀ x ∈ result, isAtTok x = false) →
    (∀ x ∈ (remove_argument value b a m left result l).2.1, isAtTok x = false) ∧
    (remove_argument value b a m left result l).1.filter isAtTok =
      left.filter isAtTok ++ l.filter isAtTok ∧
    (∀ q, (mlookup (remove_argument value b a m left result l).2.2 q).map
        (fun f => f.values.filter isAtTok) =
      (mlookup m q).map (fun f => f.values.filter isAtTok)) := by
  intro m left result l
  induction m, left, result, l using remove_argument.induct value b a with
  | case1 m left result =>
    intro hres
    exact ⟨hres, by simp [remove_argument], fun q => rfl⟩
  | case2 m left result t =>
    intro hres
    have h := remove_argument_last_at value b a m left result t hres
    simpa [remove_argument] using h
  | case3 m left result t r1 rtail hat f hml inner0 result0 ih =>
    intro hres
    have happ : remove_argument value b a m left result (t :: r1 :: rtail) =
        remove_argument value b a
          (mupdate m t.tail
            { f with values := (remove_argument_inner value b a [] [] f.values).1 })
          (left ++ [t])
          (result ++ (remove_argument_inner value b a [] [] f.values).2.filter
            (fun e => !(decide (e ∈ result)))) (r1 :: rtail) := by
      simp only [remove_argument]
      rw [if_pos hat, hml]
    have htat : isAtTok t = true := by simp [isAtTok, hat]
    obtain ⟨hin1, hin2⟩ :=
      remove_argument_inner_at value b a [] [] f.values (by simp)
    have hres' : ∀ x ∈ result ++ (remove_argument_inner value b a [] [] f.values).2.filter
        (fun e => !(decide (e ∈ result))), isAtTok x = false := by
      intro x hx
      rcases List.mem_append.mp hx with h | h
      · exact hres x h
      · exact hin1 x (List.mem_of_mem_filter h)
    obtain ⟨ih1, ih2, ih3⟩ := ih hres'
    refine ⟨by rw [happ]; exact ih1, ?_, ?_⟩
    · rw [happ, ih2]
      simp [List.filter_append, List.filter_cons, htat]
    · intro q
      rw [happ]
      rw [ih3 q, mlookup_mupdate m t.tail f _ hml q]
      by_cases hq : q = t.tail
      · subst hq
        rw [if_pos rfl, hml]
        simpa using hin2
      · rw [if_neg hq]
  | case4 m left result t r1 rtail hat hml ih =>
    intro hres
    have happ : remove_argument value b a m left result (t :: r1 :: rtail) =
        remove_argument value b a m (left ++ [t]) result (r1 :: rtail) := by
      simp only [remove_argument]
      rw [if_pos hat, hml]
    have htat : isAtTok t = true := by simp [isAtTok, hat]
    obtain ⟨ih1, ih2, ih3⟩ := ih hres
    refine ⟨by rw [happ]; exact ih1, ?_, ?_⟩
    · rw [happ, ih2]
      simp [List.filter_append, List.filter_cons, htat]
    · intro q
      rw [happ, ih3 q]
  | case5 m left result t r1 rtail hat hend p hb hg ih =>
    intro hres
    subst hb
    have htat : isAtTok t = false := by simp [isAtTok, hat]
    have happ : remove_argument value (some p) a m left result (t :: r1 :: rtail) =
        remove_argument value (some p) a m left (pushIfNew result t) (r1 :: rtail) := by
      simp only [remove_argument]
      rw [if_neg hat, if_pos hend]
      rw [if_pos hg]
    obtain ⟨ih1, ih2, ih3⟩ := ih (pushIfNew_at result t hres htat)
    refine ⟨by rw [happ]; exact ih1, ?_, ?_⟩
    · rw [happ, ih2]
      simp [List.filter_cons, htat]
    · intro q
      rw [happ, ih3 q]
  | case6 m left result t r1 rtail hat hend p hb hg ih =>
    intro hres
    subst hb
    have htat : isAtTok t = false := by simp [isAtTok, hat]
    have happ : remove_argument value (some p) a m left result (t :: r1 :: rtail) =
        remove_argument value (some p) a m (left ++ [t]) result (r1 :: rtail) := by
      simp only [remove_argument]
      rw [if_neg hat, if_pos hend]
      rw [if_neg hg]
    obtain ⟨ih1, ih2, ih3⟩ := ih hres
    refine ⟨by rw [happ]; exact ih1, ?_, ?_⟩
    · rw [happ, ih2]
      simp [List.filter_append, List.filter_cons, htat]
    · intro q
      rw [happ, ih3 q]
  | case7 m left result t r1 rtail hat hend hb p ha hr1 ih =>
    intro hres
    subst hb ha
    have htat : isAtTok t = false := by simp [isAtTok, hat]
    have happ : remove_argument value none (some p) m left result (t :: r1 :: rtail) =
        remove_argument value none (some p) m (left ++ [r1]) (pushIfNew result t) rtail := by
      simp only [remove_argument]
      rw [if_neg hat, if_pos hend]
      rw [if_pos hr1]
    obtain ⟨ih1, ih2, ih3⟩ := ih (pushIfNew_at result t hres htat)
    refine ⟨by rw [happ]; exact ih1, ?_, ?_⟩
    · rw [happ, ih2]
      simp [List.filter_append, List.filter_cons, htat]
      split_ifs <;> simp
    · intro q
      rw [happ, ih3 q]
  | case8 m left result t r1 rtail hat hend hb p ha hr1 ih =>
    intro hres
    subst hb ha
    have htat : isAtTok t = false := by simp [isAtTok, hat]
    have happ : remove_argument value none (some p) m left result (t :: r1 :: rtail) =
        remove_argument value none (some p) m (left ++ [t]) result (r1 :: rtail) := by
      simp only [remove_argument]
      rw [if_neg hat, if_pos hend]
      rw [if_neg hr1]
    obtain ⟨ih1, ih2, ih3⟩ := ih hres
    refine ⟨by rw [happ]; exact ih1, ?_, ?_⟩
    · rw [happ, ih2]
      simp [List.filter_append, List.filter_cons, htat]
    · intro q
      rw [happ, ih3 q]
  | case9 m left result t r1 rtail hat hend hb ha ih =>
    intro hres
    subst hb ha
    have htat : isAtTok t = false := by simp [isAtTok, hat]
    have happ : remove_argument value none none m left result (t :: r1 :: rtail) =
        remove_argument value none none m (left ++ [r1]) (pushIfNew result t) rtail := by
      simp only [remove_argument]
      rw [if_neg hat, if_pos hend]
    obtain ⟨ih1, ih2, ih3⟩ := ih (pushIfNew_at result t hres htat)
    refine ⟨by rw [happ]; exact ih1, ?_, ?_⟩
    · rw [happ, ih2]
      simp [List.filter_append, List.filter_cons, htat]
      split_ifs <;> simp
    · intro q
      rw [happ, ih3 q]
  | case10 m left result t r1 rtail hat hend ih =>
    intro hres
    have htat : isAtTok t = false := by simp [isAtTok, hat]
    have happ : remove_argument value b a m left result (t :: r1 :: rtail) =
        remove_argument value b a m (left ++ [t]) result (r1 :: rtail) := by
      simp only [remove_argument]
      rw [if_neg hat, if_neg hend]
    obtain ⟨ih1, ih2, ih3⟩ := ih hres
    refine ⟨by rw [happ]; exact ih1, ?_, ?_⟩
    · rw [happ, ih2]
      simp [List.filter_append, List.filter_cons, htat]
    · intro q
      rw [happ, ih3 q]

/-- C10: in every anchored-relocate scan (any value, any anchor, any
direction), a token beginning with at — whether or not it names a loaded
response file — is never collected: the collected result contains no
at-token, the at-token subsequence of the top-level list is preserved in
content and order, and so is the at-token subsequence of every loaded
response file's value list. -/
theorem c10_at_tokens_preserved (value : Tok) (b a : Option Tok) (m : ResponseMap)
    (l : List Tok) :
    (∀ x ∈ (remove_argument value b a m [] [] l).2.1, isAtTok x = false) ∧
    (remove_argument value b a m [] [] l).1.filter isAtTok = l.filter isAtTok ∧
    (∀ q, (mlookup (remove_argument value b a m [] [] l).2.2 q).map
        (fun f => f.values.filter isAtTok) =
      (mlookup m q).map (fun f => f.values.filter isAtTok)) := by
  obtain ⟨h1, h2, h3⟩ := remove_argument_at value b a m [] [] l (by simp)
  exact ⟨h1, by simpa using h2, h3⟩

/-- Models `str::strip_prefix`: the remainder after a literal prefix. -/
def stripPfx : List Char → List Char → Option (List Char)
  | [], l => some l
  | _ :: _, [] => none
  | p :: ps, c :: cs => if c = p then stripPfx ps cs else none

/-- Models `arg.splitn(2, '=')` followed by `next().unwrap_or("")` twice
(main.rs lines 600-602, 635-637, ...): the part before the first equals
sign, and the part after it (empty when there is no equals sign). -/
def split2Eq : List Char → List Char × List Char
  | [] => ([], [])
  | c :: rest =>
    if c = '=' then ([], rest)
    else
      let p := split2Eq rest
      (c :: p.1, p.2)

/-- The dispatch-table tag of the feature function carried by a
`CommandWrapper` (main.rs lines 557-561); function pointers are modelled
as a closed enumeration. -/
inductive FeatureKind where
  | removeArgumentF
  | replaceArgumentF
  | staticLinkF
  | dynamicLinkF
  | moveFrontBeforeF
  | moveFrontAfterF
  | moveBackBeforeF
  | moveBackAfterF
  deriving DecidableEq

/-- Translation of `CommandWrapper` (main.rs lines 557-561). -/
structure CommandWrapper where
  key : Tok
  value : Option Tok
  feature : FeatureKind
  deriving DecidableEq

/-- Translation of `CommandType` (main.rs lines 563-569); `Option` is
renamed `Opt` to avoid clashing with the core type. -/
inductive CommandType where
  | Flag
  | Command (w : CommandWrapper)
  | Opt
  | Ignore
  deriving DecidableEq

/-- Translation of `parse_arguments` (main.rs lines 571-695): the prefix
dispatch chain over the directive key, returning the possibly updated
configuration and the command type. -/
def parse_arguments (config : Configuration) (key : Tok) : Configuration × CommandType :=
  if key = "just-print".data then ({ config with just_print := true }, CommandType.Flag)
  else if key = "before-print".data then
    ({ config with before_print := true }, CommandType.Flag)
  else match stripPfx "log-file=".data key with
  | some log_file => ({ config with log_file := log_file }, CommandType.Opt)
  | none => match stripPfx "command=".data key with
  | some command => ({ config with command := command }, CommandType.Opt)
  | none => match stripPfx "work-dir=".data key with
  | some dir => ({ config with work_dir := dir }, CommandType.Opt)
  | none => match stripPfx "redirect-stdout=".data key with
  | some path => ({ config with redirect_stdout := path }, CommandType.Opt)
  | none => match stripPfx "redirect-stderr=".data key with
  | some path => ({ config with redirect_stderr := path }, CommandType.Opt)
  | none => match stripPfx "remove=".data key with
  | some arg =>
    (config, CommandType.Command ⟨arg, none, FeatureKind.removeArgumentF⟩)
  | none => match stripPfx "replace-".data key with
  | some arg =>
    let p := split2Eq arg
    if p.1.isEmpty || p.2.isEmpty then (config, CommandType.Ignore)
    else (config, CommandType.Command ⟨p.1, some p.2, FeatureKind.replaceArgumentF⟩)
  | none => match stripPfx "static-link-compiler=".data key with
  | some lib => (config, CommandType.Command ⟨lib, none, FeatureKind.staticLinkF⟩)
  | none => match stripPfx "dynamic-link-compiler=".data key with
  | some lib => (config, CommandType.Command ⟨lib, none, FeatureKind.dynamicLinkF⟩)
  | none => match stripPfx "static-link=".data key with
  | some lib => (config, CommandType.Command ⟨lib, some "1".data, FeatureKind.staticLinkF⟩)
  | none => match stripPfx "dynamic-link=".data key with
  | some lib => (config, CommandType.Command ⟨lib, some "1".data, FeatureKind.dynamicLinkF⟩)
  | none => match stripPfx "move-front=".data key with
  | some value =>
    (config, CommandType.Command ⟨value, none, FeatureKind.moveFrontBeforeF⟩)
  | none => match stripPfx "move-front-before-".data key with
  | some value =>
    let p := split2Eq value
    if p.1.isEmpty || p.2.isEmpty then (config, CommandType.Ignore)
    else (config, CommandType.Command ⟨p.2, some p.1, FeatureKind.moveFrontBeforeF⟩)
  | none => match stripPfx "move-front-after-".data key with
  | some value =>
    let p := split2Eq value
    if p.1.isEmpty || p.2.isEmpty then (config, CommandType.Ignore)
    else (config, CommandType.Command ⟨p.2, some p.1, FeatureKind.moveFrontAfterF⟩)
  | none => match stripPfx "move-back=".data key with
  | some value =>
    (config, CommandType.Command ⟨value, none, FeatureKind.moveBackBeforeF⟩)
  | none => match stripPfx "move-back-before-".data key with
  | some value =>
    let p := split2Eq value
    if p.1.isEmpty || p.2.isEmpty then (config, CommandType.Ignore)
    else (config, CommandType.Command ⟨p.2, some p.1, FeatureKind.moveBackBeforeF⟩)
  | none => match stripPfx "move-back-after-".data key with
  | some value =>
    let p := split2Eq value
    if p.1.isEmpty || p.2.isEmpty then (config, CommandType.Ignore)
    else (config, CommandType.Command ⟨p.2, some p.1, FeatureKind.moveBackAfterF⟩)
  | none => (config, CommandType.Ignore)

/-- One iteration of the argument loop of `run` (main.rs lines 759-767)
for an argument carrying the directive prefix, i.e. `argument` is
`-clw-` followed by `key`: a recognized command is appended to the pending
command list, `Flag` and `Opt` directives only mutate the configuration,
and an `Ignore` outcome pushes the original literal argument string back
onto the argument list unchanged. -/
def run_directive_step (config : Configuration) (commands : List CommandWrapper)
    (key : Tok) : Configuration × List CommandWrapper :=
  match parse_arguments config key with
  | (c, CommandType.Command f) => (c, commands ++ [f])
  | (c, CommandType.Ignore) =>
    ({ c with arguments := c.arguments ++ ["-clw-".data ++ key] }, commands)
  | (c, _) => (c, commands)

theorem split2Eq_no_eq : ∀ (r : List Char), '=' ∉ r → split2Eq r = (r, []) := by
  intro r
  induction r with
  | nil => intro _; rfl
  | cons c rest ih =>
    intro hr
    simp only [split2Eq]
    rw [if_neg (by intro hc; subst hc; exact hr (List.mem_cons_self _ _)),
      ih (fun hm => hr (List.mem_cons_of_mem c hm))]

/-- C9: a directive whose key is `replace-` with no equals sign, or a
move-front/move-back before/after form with an empty anchor or empty
value, is parsed as `Ignore`: no command is registered and the original
literal directive string (prefix included) is appended to the argument
list unchanged. -/
theorem c9_deficient_directive (config : Configuration) (commands : List CommandWrapper)
    (key : Tok)
    (h : (∃ r, key = "replace-".data ++ r ∧ '=' ∉ r) ∨
      (∃ v, key = "move-front-before-".data ++ v ∧
        ((split2Eq v).1.isEmpty || (split2Eq v).2.isEmpty) = true) ∨
      (∃ v, key = "move-front-after-".data ++ v ∧
        ((split2Eq v).1.isEmpty || (split2Eq v).2.isEmpty) = true) ∨
      (∃ v, key = "move-back-before-".data ++ v ∧
        ((split2Eq v).1.isEmpty || (split2Eq v).2.isEmpty) = true) ∨
      (∃ v, key = "move-back-after-".data ++ v ∧
        ((split2Eq v).1.isEmpty || (split2Eq v).2.isEmpty) = true)) :
    run_directive_step config commands key =
      ({ config with arguments := config.arguments ++ ["-clw-".data ++ key] }, commands) := by
  have hstep : parse_arguments config key = (config, CommandType.Ignore) → 
      run_directive_step config commands key =
        ({ config with arguments := config.arguments ++ ["-clw-".data ++ key] }, commands) := by
    intro hpa
    unfold run_directive_step
    rw [hpa]
  rcases h with ⟨r, rfl, hr⟩ | ⟨v, rfl, hv⟩ | ⟨v, rfl, hv⟩ | ⟨v, rfl, hv⟩ | ⟨v, rfl, hv⟩
  · refine hstep ?_
    rw [show parse_arguments config ("replace-".data ++ r) =
        (if ((split2Eq r).1.isEmpty || (split2Eq r).2.isEmpty) = true
          then (config, CommandType.Ignore)
          else (config, CommandType.Command
            ⟨(split2Eq r).1, some (split2Eq r).2, FeatureKind.replaceArgumentF⟩)) from rfl,
      split2Eq_no_eq r hr]
    simp
  · refine hstep ?_
    rw [show parse_arguments config ("move-front-before-".data ++ v) =
        (if ((split2Eq v).1.isEmpty || (split2Eq v).2.isEmpty) = true
          then (config, CommandType.Ignore)
          else (config, CommandType.Command
            ⟨(split2Eq v).2, some (split2Eq v).1, FeatureKind.moveFrontBeforeF⟩)) from rfl,
      if_pos hv]
  · refine hstep ?_
    rw [show parse_arguments config ("move-front-after-".data ++ v) =
        (if ((split2Eq v).1.isEmpty || (split2Eq v).2.isEmpty) = true
          then (config, CommandType.Ignore)
          else (config, CommandType.Command
            ⟨(split2Eq v).2, some (split2Eq v).1, FeatureKind.moveFrontAfterF⟩)) from rfl,
      if_pos hv]
  · refine hstep ?_
    rw [show parse_arguments config ("move-back-before-".data ++ v) =
        (if ((split2Eq v).1.isEmpty || (split2Eq v).2.isEmpty) = true
          then (config, CommandType.Ignore)
          else (config, CommandType.Command
            ⟨(split2Eq v).2, some (split2Eq v).1, FeatureKind.moveBackBeforeF⟩)) from rfl,
      if_pos hv]
  · refine hstep ?_
    rw [show parse_arguments config ("move-back-after-".data ++ v) =
        (if ((split2Eq v).1.isEmpty || (split2Eq v).2.isEmpty) = true
          then (config, CommandType.Ignore)
          else (config, CommandType.Command
            ⟨(split2Eq v).2, some (split2Eq v).1, FeatureKind.moveBackAfterF⟩)) from rfl,
      if_pos hv]

/-- C9 (witness): the directive -clw-replace-abc (no equals sign) is
pushed back literally and registers nothing. -/
theorem c9_deficient_directive_witness :
    run_directive_step ⟨[], [], false, false, [], [], [], [], []⟩ []
        ("replace-".data ++ "abc".data) =
      ({ (⟨[], [], false, false, [], [], [], [], []⟩ : Configuration) with
          arguments := (⟨[], [], false, false, [], [], [], [], []⟩ : Configuration).arguments ++
            ["-clw-".data ++ ("replace-".data ++ "abc".data)] }, []) :=
  c9_deficient_directive ⟨[], [], false, false, [], [], [], [], []⟩ []
    ("replace-".data ++ "abc".data) (Or.inl ⟨"abc".data, rfl, by decide⟩)
